import Mathlib

/-!
# bs::framework slice: particle texture pool, shader variation selector,
# GUI layout options and shader import options RTTI

A shallow embedding of

* `Source/Plugins/bsfRenderBeast/BsRendererParticles.cpp`
  (`getParticleShaderVariation`, `ParticleTexturePool`),
* `BansheeEngine/Source/BsGUIElement.cpp` (`GUIElement::setLayoutOptions`),
* `Source/Foundation/bsfCore/Private/RTTI/BsShaderImportOptionsRTTI.h`,

followed by the properties proved about them.

Conventions of the embedding.

* `UINT32` values are natural numbers; every arithmetic result of the index
  computation of `ParticleTexturePool::alloc` is reduced modulo `2 ^ 32`.
* Containers (`Vector`, `UnorderedMap`) are lists. A container holds fewer than
  `2 ^ 32` elements, so the `(UINT32)` cast of a container size is the identity,
  and the per-size cursor, which counts the `alloc` calls of one frame, is
  incremented without wrap-around.
* Pointers to pool-owned `ParticleTextures` objects are the positions of the
  objects in the list of objects constructed by the pool allocator.
* GPU side effects are recorded as a list of events in program order.
-/

namespace BSF

/-! ## Shader variation selector (`BsRendererParticles.cpp`, lines 13-43) -/

/-- The enum `ParticleOrientation`; `unrecognized` stands for any value of the
underlying integer type that is none of the three enumerators. -/
inductive ParticleOrientation where
  | ViewPlane
  | ViewPosition
  | Plane
  | unrecognized (raw : Nat)
  deriving DecidableEq, Repr

/-- The overload `template<bool LOCK_Y, bool GPU> _getParticleShaderVariation(orient)`.
The table of statically registered variations, the function template
`getParticleShaderVariation<ORIENT, LOCK_Y, GPU>()` of the header, is the
parameter `registered`. -/
def _getParticleShaderVariation {V : Type} (registered : ParticleOrientation → Bool → Bool → V)
    (LOCK_Y GPU : Bool) (orient : ParticleOrientation) : V :=
  match orient with
  | .ViewPlane => registered .ViewPlane LOCK_Y GPU
  | .ViewPosition => registered .ViewPosition LOCK_Y GPU
  | .Plane => registered .Plane LOCK_Y GPU
  | .unrecognized _ => registered .ViewPlane LOCK_Y GPU

/-- The overload `template<bool GPU> _getParticleShaderVariation(orient, lockY)`. -/
def _getParticleShaderVariationLockY {V : Type}
    (registered : ParticleOrientation → Bool → Bool → V)
    (GPU : Bool) (orient : ParticleOrientation) (lockY : Bool) : V :=
  if lockY then _getParticleShaderVariation registered true GPU orient
  else _getParticleShaderVariation registered false GPU orient

/-- The function `getParticleShaderVariation(orient, lockY, gpu)`. -/
def getParticleShaderVariation {V : Type} (registered : ParticleOrientation → Bool → Bool → V)
    (orient : ParticleOrientation) (lockY gpu : Bool) : V :=
  if gpu then _getParticleShaderVariationLockY registered true orient lockY
  else _getParticleShaderVariationLockY registered false orient lockY

/-- The three enumerators of `ParticleOrientation`. -/
def definedOrientations : List ParticleOrientation :=
  [.ViewPlane, .ViewPosition, .Plane]

/-- The twelve defined `(orientation, lockY, gpu)` combinations. -/
def definedCombinations : List (ParticleOrientation × Bool × Bool) :=
  definedOrientations.flatMap fun o =>
    [(o, false, false), (o, false, true), (o, true, false), (o, true, true)]

/-- A sample registry: every combination is its own variation. -/
def sampleRegistry (o : ParticleOrientation) (lockY gpu : Bool) :
    ParticleOrientation × Bool × Bool :=
  (o, lockY, gpu)

/-! ## GUI layout options (`BsGUIElement.cpp`, lines 60-75) -/

/-- Modelled from the spec: the struct `GUILayoutOptions` is declared in a header
that is not part of the sources; these are the four fields that
`GUIElement::setLayoutOptions` reads. -/
structure GUILayoutOptions where
  minWidth : Nat
  maxWidth : Nat
  minHeight : Nat
  maxHeight : Nat
  deriving DecidableEq, Repr

/-- Exceptions raised through `BS_EXCEPT`. -/
inductive BsException where
  | InvalidParametersException (message : String)
  deriving DecidableEq, Repr

/-- The members of `GUIElement` set by its constructor. -/
structure GUIElement where
  mLayoutOptions : GUILayoutOptions
  mDepth : Nat
  mIsDestroyed : Bool
  mStyleName : String
  deriving DecidableEq, Repr

/-- The method `GUIElement::setLayoutOptions`: the outcome of the call together with the
element after it. -/
def GUIElement.setLayoutOptions (self : GUIElement) (layoutOptions : GUILayoutOptions) :
    Except BsException Unit × GUIElement :=
  if layoutOptions.maxWidth < layoutOptions.minWidth then
    (.error (.InvalidParametersException
      ("Maximum width is less than minimum width! Max width: " ++
        toString layoutOptions.maxWidth ++ ". Min width: " ++
        toString layoutOptions.minWidth)), self)
  else if layoutOptions.maxHeight < layoutOptions.minHeight then
    (.error (.InvalidParametersException
      ("Maximum height is less than minimum height! Max height: " ++
        toString layoutOptions.maxHeight ++ ". Min height: " ++
        toString layoutOptions.minHeight)), self)
  else
    (.ok (), { self with mLayoutOptions := layoutOptions })

/-- The call ended in an `InvalidParametersException`. -/
def failsWithInvalidParameters (r : Except BsException Unit) : Bool :=
  match r with
  | .error (.InvalidParametersException _) => true
  | .ok _ => false

/-! ## Shader import options RTTI (`BsShaderImportOptionsRTTI.h`) -/

/-- The type `UnorderedMap<String, String>`: its entries in iteration order. A map holds
every key once (`UnorderedMap.WF`). -/
abbrev UnorderedMap := List (String × String)

/-- Keys of a map are pairwise distinct. -/
def UnorderedMap.WF (m : UnorderedMap) : Prop :=
  (m.map Prod.fst).Nodup

instance (m : UnorderedMap) : Decidable m.WF := by
  unfold UnorderedMap.WF; infer_instance

/-- Lookup of a key. -/
def UnorderedMap.find (m : UnorderedMap) (key : String) : Option String :=
  (List.find? (fun e => e.1 == key) m).map Prod.snd

/-- The assignment `m[key] = value`: overwrites the value of an existing key, inserts a
new entry otherwise. -/
def UnorderedMap.assign (m : UnorderedMap) (key value : String) : UnorderedMap :=
  if m.any (fun e => e.1 == key) then
    m.map (fun e => if e.1 == key then (e.1, value) else e)
  else
    m ++ [(key, value)]

/-- The class `ShaderImportOptions`, reduced to its defines. -/
structure ShaderImportOptions where
  mDefines : UnorderedMap
  deriving DecidableEq, Repr

/-- The accessor `ShaderImportOptions::getDefines`. -/
def ShaderImportOptions.getDefines (obj : ShaderImportOptions) : UnorderedMap :=
  obj.mDefines

/-- The class `ShaderImportOptionsRTTI`: its only data member. -/
structure ShaderImportOptionsRTTI where
  mDefinePairs : List (String × String)
  deriving DecidableEq, Repr

namespace ShaderImportOptionsRTTI

/-- A newly constructed RTTI object: the vector member starts empty. -/
def new : ShaderImportOptionsRTTI :=
  { mDefinePairs := [] }

/-- The factory `newRTTIObject`: a default constructed `ShaderImportOptions`. -/
def newRTTIObject : ShaderImportOptions :=
  { mDefines := [] }

/-- The getter `getDefinePair`; `none` stands for the out of range access. -/
def getDefinePair (self : ShaderImportOptionsRTTI) (_obj : ShaderImportOptions) (idx : Nat) :
    Option (String × String) :=
  self.mDefinePairs[idx]?

/-- The setter `setDefinePair`. -/
def setDefinePair (obj : ShaderImportOptions) (_idx : Nat) (val : String × String) :
    ShaderImportOptions :=
  { obj with mDefines := obj.getDefines.assign val.1 val.2 }

/-- The getter `getNumDefines`. -/
def getNumDefines (obj : ShaderImportOptions) : Nat :=
  obj.getDefines.length

/-- The setter `setNumDefines`: does nothing. -/
def setNumDefines (obj : ShaderImportOptions) (_val : Nat) : ShaderImportOptions :=
  obj

/-- The callback `onSerializationStarted`: every entry of the defines is pushed to the back of
`mDefinePairs`. -/
def onSerializationStarted (self : ShaderImportOptionsRTTI) (obj : ShaderImportOptions) :
    ShaderImportOptionsRTTI :=
  obj.getDefines.foldl (fun rtti entry => { mDefinePairs := rtti.mDefinePairs ++ [entry] }) self

/-- Modelled from the spec: the plain array field reader of the reflection framework
(not part of the sources) reads `getDefinePair(obj, i)` for `i` in
`[0, getNumDefines(obj))`. -/
def readDefinePairs (self : ShaderImportOptionsRTTI) (obj : ShaderImportOptions) :
    List (Option (String × String)) :=
  (List.range (getNumDefines obj)).map (fun i => self.getDefinePair obj i)

/-- Modelled from the spec: the plain array field writer of the reflection framework
(not part of the sources) passes the streamed pairs, in order, to `setDefinePair`;
a missing pair is skipped. -/
def writeDefinePairs (obj : ShaderImportOptions) (pairs : List (Option (String × String))) :
    ShaderImportOptions :=
  pairs.enum.foldl
    (fun o p => match p.2 with
      | some val => setDefinePair o p.1 val
      | none => o) obj

end ShaderImportOptionsRTTI

/-! ## Particle texture pool (`BsRendererParticles.cpp`, lines 47-141) -/

/-- Pixel formats used by `createNewTextures`. -/
inductive PixelFormat where
  | PF_RGBA32F
  | PF_RGBA8
  | PF_RGBA16F
  deriving DecidableEq, Repr

/-- The fields of `TEXTURE_DESC` that `createNewTextures` sets (type `TEX_TYPE_2D`,
usage `TU_DYNAMIC`). -/
structure TEXTURE_DESC where
  width : Nat
  height : Nat
  format : PixelFormat
  deriving DecidableEq, Repr

/-- The fields of `GPU_BUFFER_DESC` that `createNewTextures` sets (type `GBT_STANDARD`,
format `BF_16X2U`). -/
structure GPU_BUFFER_DESC where
  elementCount : Nat
  deriving DecidableEq, Repr

/-- The struct `ParticleTextures`: the resources of one bundle, each by its creation
descriptor. -/
structure ParticleTextures where
  positionAndRotation : TEXTURE_DESC
  color : TEXTURE_DESC
  sizeAndFrameIdx : TEXTURE_DESC
  indices : GPU_BUFFER_DESC
  deriving DecidableEq, Repr

/-- The class `PixelData`: dimensions and payload. -/
structure PixelData where
  getWidth : Nat
  getHeight : Nat
  data : List Nat
  deriving DecidableEq, Repr

/-- The struct `ParticleCPUSimulationData`; `indices` lists the live particles (fewer than
`2 ^ 32` of them). -/
structure ParticleCPUSimulationData where
  positionAndRotation : PixelData
  color : PixelData
  sizeAndFrameIdx : PixelData
  indices : List Nat
  deriving DecidableEq, Repr

/-- The struct `BuffersPerSize`: the bundles of one tile size, by pointer, and the cursor. -/
structure BuffersPerSize where
  buffers : List Nat
  nextFreeIdx : Nat
  deriving DecidableEq, Repr

/-- The class `ParticleTexturePool`. `mBufferList` maps a tile size to its bucket; a key
that the C++ map does not hold yet maps to the bucket `operator[]` would insert (no
bundles, cursor zero). `mAlloc` lists the objects constructed so far. -/
structure ParticleTexturePool where
  mBufferList : Nat → BuffersPerSize
  mAlloc : List ParticleTextures

/-- The three textures of a bundle. -/
inductive TextureSlot where
  | positionAndRotation
  | color
  | sizeAndFrameIdx
  deriving DecidableEq, Repr

/-- Calls made on the GPU resources of a bundle. `store` is one assignment through the
pointer returned by `lock`. -/
inductive GpuEvent where
  | writeData (bundle : Nat) (texture : TextureSlot) (src : PixelData) (mipLevel face : Nat)
      (discardWholeBuffer : Bool)
  | lockWriteOnlyDiscard (bundle : Nat)
  | store (bundle : Nat) (idx value : Nat)
  | unlock (bundle : Nat)
  deriving DecidableEq, Repr

/-- What one call of `alloc` yields: the returned pointer, the pool after the call and the
GPU calls made. -/
structure AllocResult where
  output : Nat
  pool : ParticleTexturePool
  events : List GpuEvent

/-- Modelled from the spec: `Math::divideAndRoundUp` is not part of the sources; the row
count is the ceiling of `numParticles / size`. -/
def divideAndRoundUp (n d : Nat) : Nat :=
  (n + d - 1) / d

/-- One entry of the index buffer: `(x & 0xFFFF) | (y << 16)` on `UINT32`. -/
def packIndex (x y : Nat) : Nat :=
  (x &&& 0xFFFF) ||| ((y <<< 16) % 2 ^ 32)

/-- The write position `idx` and the assignments `indices[idx++] = value` made so far, each
as `(position, value)`. -/
structure IndexWriter where
  idx : Nat
  written : List (Nat × Nat)
  deriving DecidableEq, Repr

/-- The statement `indices[idx++] = value`. -/
def IndexWriter.put (w : IndexWriter) (value : Nat) : IndexWriter :=
  { idx := (w.idx + 1) % 2 ^ 32, written := w.written ++ [(w.idx, value)] }

/-- The loop `for (UINT32 x = 0; x < count; x++) indices[idx++] = (x & 0xFFFF) | (y << 16)`. -/
def writeRow (count y : Nat) (w : IndexWriter) : IndexWriter :=
  (List.range count).foldl (fun w x => w.put (packIndex x y)) w

/-- The loop `for (; y < bound; y++)` over full rows, `y` starting at zero. -/
def writeFullRows (size bound : Nat) (w : IndexWriter) : IndexWriter :=
  (List.range bound).foldl (fun w y => writeRow size y w) w

/-- The body of `if(numParticles > 0)` in `alloc` between `lock` and `unlock`
(lines 85-98): the assignments made to the locked index buffer. -/
def writeIndices (numParticles size : Nat) : List (Nat × Nat) :=
  let numRows := divideAndRoundUp numParticles size % 2 ^ 32
  let lastRow := (numRows + 2 ^ 32 - 1) % 2 ^ 32
  let w := writeFullRows size lastRow { idx := 0, written := [] }
  let remainingParticles := (numParticles + 2 ^ 32 - (lastRow * size) % 2 ^ 32) % 2 ^ 32
  (writeRow remainingParticles lastRow w).written

namespace ParticleTexturePool

/-- A newly constructed pool. -/
def empty : ParticleTexturePool :=
  { mBufferList := fun _ => { buffers := [], nextFreeIdx := 0 }, mAlloc := [] }

/-- The bundle that `createNewTextures(size)` constructs. -/
def newParticleTextures (size : Nat) : ParticleTextures :=
  { positionAndRotation := { width := size, height := size, format := .PF_RGBA32F }
    color := { width := size, height := size, format := .PF_RGBA8 }
    sizeAndFrameIdx := { width := size, height := size, format := .PF_RGBA16F }
    indices := { elementCount := (size * size) % 2 ^ 32 } }

/-- The method `createNewTextures`: constructs a bundle, pushes its pointer to the back of the
bucket of `size` and returns the pointer. -/
def createNewTextures (self : ParticleTexturePool) (size : Nat) : Nat × ParticleTexturePool :=
  let output := self.mAlloc.length
  (output,
    { mAlloc := self.mAlloc ++ [newParticleTextures size]
      mBufferList := fun s =>
        if s = size then
          { self.mBufferList s with buffers := (self.mBufferList s).buffers ++ [output] }
        else self.mBufferList s })

/-- The statement `buffers.nextFreeIdx++` on the bucket of `size`. -/
def advance (self : ParticleTexturePool) (size : Nat) : ParticleTexturePool :=
  { self with
    mBufferList := fun s =>
      if s = size then
        { self.mBufferList s with nextFreeIdx := (self.mBufferList s).nextFreeIdx + 1 }
      else self.mBufferList s }

/-- Lines 58-72 of `alloc`: the bundle resolved for `size` and the pool afterwards. -/
def resolve (self : ParticleTexturePool) (size : Nat) : Nat × ParticleTexturePool :=
  let buffers := self.mBufferList size
  let reused : Option Nat × ParticleTexturePool :=
    if buffers.nextFreeIdx < buffers.buffers.length then
      (buffers.buffers[buffers.nextFreeIdx]?, self.advance size)
    else (none, self)
  match reused.1 with
  | some output => (output, reused.2)
  | none =>
    let created := reused.2.createNewTextures size
    (created.1, created.2.advance size)

/-- The method `alloc`. -/
def alloc (self : ParticleTexturePool) (simulationData : ParticleCPUSimulationData) :
    AllocResult :=
  let size := simulationData.color.getWidth
  let resolved := self.resolve size
  let output := resolved.1
  let textureWrites : List GpuEvent :=
    [ .writeData output .positionAndRotation simulationData.positionAndRotation 0 0 true,
      .writeData output .color simulationData.color 0 0 true,
      .writeData output .sizeAndFrameIdx simulationData.sizeAndFrameIdx 0 0 true ]
  let numParticles := simulationData.indices.length
  let indexWrites : List GpuEvent :=
    if numParticles > 0 then
      [GpuEvent.lockWriteOnlyDiscard output] ++
        (writeIndices numParticles size).map (fun w => GpuEvent.store output w.1 w.2) ++
        [GpuEvent.unlock output]
    else []
  { output := output, pool := resolved.2, events := textureWrites ++ indexWrites }

/-- The method `clear`. -/
def clear (self : ParticleTexturePool) : ParticleTexturePool :=
  { self with mBufferList := fun s => { self.mBufferList s with nextFreeIdx := 0 } }

end ParticleTexturePool

/-- A call on the pool. -/
inductive PoolCall where
  | alloc (simulationData : ParticleCPUSimulationData)
  | clear
  deriving DecidableEq, Repr

/-- The call is `clear()`. -/
def PoolCall.isClear : PoolCall → Bool
  | .clear => true
  | .alloc _ => false

/-- The call is an `alloc` for tile size `size`. -/
def PoolCall.isAllocFor (size : Nat) : PoolCall → Bool
  | .clear => false
  | .alloc simulationData => simulationData.color.getWidth == size

/-- The pool after one call. -/
def PoolCall.apply (pool : ParticleTexturePool) : PoolCall → ParticleTexturePool
  | .alloc simulationData => (pool.alloc simulationData).pool
  | .clear => pool.clear

/-- The pool after a sequence of calls. -/
def runCalls (pool : ParticleTexturePool) (calls : List PoolCall) : ParticleTexturePool :=
  calls.foldl PoolCall.apply pool

/-- The pointers returned, in order, by the `alloc` calls for tile size `size` of a sequence
of calls made on `pool`. -/
def handedOut (size : Nat) : ParticleTexturePool → List PoolCall → List Nat
  | _, [] => []
  | pool, .clear :: calls => handedOut size pool.clear calls
  | pool, .alloc simulationData :: calls =>
    let r := pool.alloc simulationData
    if simulationData.color.getWidth = size then r.output :: handedOut size r.pool calls
    else handedOut size r.pool calls

/-- The frames of a sequence of calls: the maximal runs of calls without a `clear`. -/
def frames : List PoolCall → List (List PoolCall)
  | [] => [[]]
  | .clear :: calls => [] :: frames calls
  | .alloc simulationData :: calls =>
    match frames calls with
    | [] => [[.alloc simulationData]]
    | frame :: rest => (.alloc simulationData :: frame) :: rest

/-- Number of `alloc` calls for tile size `size` among `calls`. -/
def allocCount (size : Nat) (calls : List PoolCall) : Nat :=
  calls.countP (PoolCall.isAllocFor size)

/-- The high-water mark of `size`: the largest number of `alloc` calls for `size` in one
frame. -/
def highWaterMark (size : Nat) (calls : List PoolCall) : Nat :=
  ((frames calls).map (allocCount size)).foldr max 0

/-- A sequence of calls ends at a frame boundary: nothing was called yet, or the last call
was `clear`. -/
def endsFrame (calls : List PoolCall) : Bool :=
  match calls.getLast? with
  | none => true
  | some call => call.isClear

/-- The assignments made through the locked index buffer, as `(position, value)`. -/
def indexStores (bundle : Nat) : List GpuEvent → List (Nat × Nat)
  | [] => []
  | .store b idx value :: events =>
    if b = bundle then (idx, value) :: indexStores bundle events else indexStores bundle events
  | _ :: events => indexStores bundle events

/-- An index buffer entry unpacked as (low 16 bits, high 16 bits). -/
def unpackIndex (entry : Nat) : Nat × Nat :=
  (entry % 2 ^ 16, entry / 2 ^ 16 % 2 ^ 16)

/-- Number of `lock` calls on the index buffer of a bundle. -/
def lockCount (bundle : Nat) (events : List GpuEvent) : Nat :=
  events.count (.lockWriteOnlyDiscard bundle)

/-- Number of `unlock` calls on the index buffer of a bundle. -/
def unlockCount (bundle : Nat) (events : List GpuEvent) : Nat :=
  events.count (.unlock bundle)

/-- The events that touch the index buffer of a bundle. -/
def indexBufferEvents (bundle : Nat) (events : List GpuEvent) : List GpuEvent :=
  events.filter fun e =>
    match e with
    | .writeData _ _ _ _ _ _ => false
    | .lockWriteOnlyDiscard b => b == bundle
    | .store b _ _ => b == bundle
    | .unlock b => b == bundle

/-- The `writeData` calls among the events, in order. -/
def textureWrites (events : List GpuEvent) : List GpuEvent :=
  events.filter fun e =>
    match e with
    | .writeData _ _ _ _ _ _ => true
    | _ => false

/-- Contents of an index buffer after the events: every `store` on the bundle overwrites one
position. -/
def indexContentsAfter (bundle : Nat) (contents : Nat → Nat) : List GpuEvent → Nat → Nat
  | [] => contents
  | .store b idx value :: events =>
    indexContentsAfter bundle
      (if b = bundle then fun i => if i = idx then value else contents i else contents) events
  | _ :: events => indexContentsAfter bundle contents events

/-- The cursor of the bucket of a tile size. -/
def ParticleTexturePool.cursor (pool : ParticleTexturePool) (size : Nat) : Nat :=
  (pool.mBufferList size).nextFreeIdx

/-- The bundles, by pointer, of the bucket of a tile size. -/
def ParticleTexturePool.bundles (pool : ParticleTexturePool) (size : Nat) : List Nat :=
  (pool.mBufferList size).buffers

/-- Well-formedness of a pool: in every bucket the cursor does not pass the end of the
bundle list, every pointer refers to a constructed object and no pointer occurs twice. -/
def ParticleTexturePool.WF (pool : ParticleTexturePool) : Prop :=
  ∀ size, pool.cursor size ≤ (pool.bundles size).length ∧
    (∀ b ∈ pool.bundles size, b < pool.mAlloc.length) ∧ (pool.bundles size).Nodup

/-- Largest number of `alloc` calls for `size` in one frame of `calls`, the first frame
starting with `current` such calls already made. -/
def peakFrom (size : Nat) : Nat → List PoolCall → Nat
  | current, [] => current
  | current, .clear :: calls => max current (peakFrom size 0 calls)
  | current, .alloc simulationData :: calls =>
    if simulationData.color.getWidth = size then peakFrom size (current + 1) calls
    else peakFrom size current calls

/-- A snapshot with tile size `size` and `numParticles` live particles. -/
def sampleData (size numParticles : Nat) : ParticleCPUSimulationData :=
  { positionAndRotation := { getWidth := size, getHeight := size, data := [] }
    color := { getWidth := size, getHeight := size, data := [] }
    sizeAndFrameIdx := { getWidth := size, getHeight := size, data := [] }
    indices := List.range numParticles }

end BSF

/-! # Properties -/

namespace BSF

/-! ## Shader variation selector -/

theorem getParticleShaderVariation_defined {V : Type}
    (registered : ParticleOrientation → Bool → Bool → V)
    (o : ParticleOrientation) (lockY gpu : Bool) (ho : o ∈ definedOrientations) :
    getParticleShaderVariation registered o lockY gpu = registered o lockY gpu := by
  simp only [definedOrientations, List.mem_cons, List.mem_singleton, List.not_mem_nil,
    or_false] at ho
  rcases ho with rfl | rfl | rfl <;> cases lockY <;> cases gpu <;> rfl

theorem mem_definedCombinations (c : ParticleOrientation × Bool × Bool)
    (hc : c ∈ definedCombinations) : c.1 ∈ definedOrientations := by
  simp only [definedCombinations, List.mem_flatMap] at hc
  obtain ⟨o, ho, hmem⟩ := hc
  simp only [List.mem_cons, List.mem_singleton, List.not_mem_nil, or_false] at hmem
  rcases hmem with rfl | rfl | rfl | rfl <;> exact ho

/-- C9: for each of the 12 combinations of the three orientations with `lockY` and `gpu`,
`getParticleShaderVariation` returns the statically registered variation of exactly that
combination, so that (the registry holding a different variation for each combination) the 12
results are pairwise distinct; for an orientation value outside the three it returns what it
returns for `ViewPlane` with the same `lockY` and `gpu`. -/
theorem getParticleShaderVariation_spec {V : Type}
    (registered : ParticleOrientation → Bool → Bool → V)
    (hreg : ∀ c ∈ definedCombinations, ∀ d ∈ definedCombinations,
      registered c.1 c.2.1 c.2.2 = registered d.1 d.2.1 d.2.2 → c = d) :
    definedCombinations.length = 12 ∧
    (∀ o ∈ definedOrientations, ∀ lockY gpu : Bool,
      (o, lockY, gpu) ∈ definedCombinations ∧
      getParticleShaderVariation registered o lockY gpu = registered o lockY gpu) ∧
    (definedCombinations.map
      (fun c => getParticleShaderVariation registered c.1 c.2.1 c.2.2)).Nodup ∧
    (∀ (raw : Nat) (lockY gpu : Bool),
      getParticleShaderVariation registered (.unrecognized raw) lockY gpu =
        getParticleShaderVariation registered .ViewPlane lockY gpu) := by
  refine ⟨by decide, ?_, ?_, ?_⟩
  · intro o ho lockY gpu
    refine ⟨?_, getParticleShaderVariation_defined registered o lockY gpu ho⟩
    simp only [definedOrientations, List.mem_cons, List.mem_singleton, List.not_mem_nil,
      or_false] at ho
    rcases ho with rfl | rfl | rfl <;> cases lockY <;> cases gpu <;> decide
  · refine List.Nodup.map_on ?_ (by decide)
    intro c hc d hd h
    rw [getParticleShaderVariation_defined registered c.1 c.2.1 c.2.2
        (mem_definedCombinations c hc),
      getParticleShaderVariation_defined registered d.1 d.2.1 d.2.2
        (mem_definedCombinations d hd)] at h
    exact hreg c hc d hd h
  · intro raw lockY gpu
    cases lockY <;> cases gpu <;> rfl

theorem getParticleShaderVariation_spec_witness :
    (definedCombinations.map
      (fun c => getParticleShaderVariation sampleRegistry c.1 c.2.1 c.2.2)).Nodup ∧
    getParticleShaderVariation sampleRegistry (.unrecognized 7) true false =
      getParticleShaderVariation sampleRegistry .ViewPlane true false :=
  have h := getParticleShaderVariation_spec sampleRegistry
    (by intro c _ d _ hcd; exact hcd)
  ⟨h.2.2.1, h.2.2.2 7 true false⟩

/-! ## GUI layout options -/

/-- C7: `GUIElement::setLayoutOptions` fails with `InvalidParametersException` exactly when
`maxWidth < minWidth` or `maxHeight < minHeight`; a failing call leaves the element as it
was, a succeeding one stores the argument. With `maxWidth = 10`, `minWidth = 20` the call
fails; with `maxWidth = 20`, `minWidth = 10` and `maxHeight >= minHeight` it succeeds. -/
theorem setLayoutOptions_validation (self : GUIElement) (layoutOptions : GUILayoutOptions) :
    (failsWithInvalidParameters (self.setLayoutOptions layoutOptions).1 = true ↔
      (layoutOptions.maxWidth < layoutOptions.minWidth ∨
        layoutOptions.maxHeight < layoutOptions.minHeight)) ∧
    (failsWithInvalidParameters (self.setLayoutOptions layoutOptions).1 = true →
      (self.setLayoutOptions layoutOptions).2 = self) ∧
    (failsWithInvalidParameters (self.setLayoutOptions layoutOptions).1 = false →
      (self.setLayoutOptions layoutOptions).1 = .ok () ∧
      (self.setLayoutOptions layoutOptions).2.mLayoutOptions = layoutOptions) ∧
    (∀ minHeight maxHeight : Nat,
      failsWithInvalidParameters (self.setLayoutOptions
        { minWidth := 20, maxWidth := 10, minHeight := minHeight,
          maxHeight := maxHeight }).1 = true) ∧
    (∀ minHeight maxHeight : Nat, minHeight ≤ maxHeight →
      (self.setLayoutOptions
        { minWidth := 10, maxWidth := 20, minHeight := minHeight,
          maxHeight := maxHeight }).1 = .ok ()) := by
  refine ⟨?_, ?_, ?_, ?_, ?_⟩
  · unfold GUIElement.setLayoutOptions
    by_cases hw : layoutOptions.maxWidth < layoutOptions.minWidth
    · simp [hw, failsWithInvalidParameters]
    · by_cases hh : layoutOptions.maxHeight < layoutOptions.minHeight
      · simp [hw, hh, failsWithInvalidParameters]
      · simp [hw, hh, failsWithInvalidParameters]
  · unfold GUIElement.setLayoutOptions
    by_cases hw : layoutOptions.maxWidth < layoutOptions.minWidth
    · simp [hw]
    · by_cases hh : layoutOptions.maxHeight < layoutOptions.minHeight
      · simp [hw, hh]
      · simp [hw, hh, failsWithInvalidParameters]
  · unfold GUIElement.setLayoutOptions
    by_cases hw : layoutOptions.maxWidth < layoutOptions.minWidth
    · simp [hw, failsWithInvalidParameters]
    · by_cases hh : layoutOptions.maxHeight < layoutOptions.minHeight
      · simp [hw, hh, failsWithInvalidParameters]
      · simp [hw, hh]
  · intro minHeight maxHeight
    simp [GUIElement.setLayoutOptions, failsWithInvalidParameters]
  · intro minHeight maxHeight h
    have : ¬ maxHeight < minHeight := Nat.not_lt.mpr h
    simp [GUIElement.setLayoutOptions, this]

/-! ## Shader import options RTTI -/

theorem onSerializationStarted_pairs (rtti : ShaderImportOptionsRTTI)
    (obj : ShaderImportOptions) :
    (rtti.onSerializationStarted obj).mDefinePairs = rtti.mDefinePairs ++ obj.getDefines := by
  unfold ShaderImportOptionsRTTI.onSerializationStarted
  generalize obj.getDefines = entries
  induction entries generalizing rtti with
  | nil => simp
  | cons e es ih => simp [List.foldl_cons, ih]

theorem range_map_getElem? {α : Type} (l : List α) :
    (List.range l.length).map (fun i => l[i]?) = l.map some := by
  apply List.ext_getElem?
  intro i
  rw [List.getElem?_map, List.getElem?_map]
  by_cases hi : i < l.length
  · rw [List.getElem?_eq_getElem (by simpa using hi), List.getElem?_eq_getElem hi]
    simp [hi]
  · have hle : l.length ≤ i := Nat.not_lt.mp hi
    rw [List.getElem?_eq_none (by simpa using hle), List.getElem?_eq_none hle]
    rfl

theorem readDefinePairs_fresh (rtti : ShaderImportOptionsRTTI) (obj : ShaderImportOptions)
    (h : rtti.mDefinePairs = []) :
    (rtti.onSerializationStarted obj).readDefinePairs obj = obj.getDefines.map some := by
  unfold ShaderImportOptionsRTTI.readDefinePairs ShaderImportOptionsRTTI.getDefinePair
    ShaderImportOptionsRTTI.getNumDefines
  rw [onSerializationStarted_pairs, h, List.nil_append]
  exact range_map_getElem? obj.getDefines

theorem assign_fresh_key (m : UnorderedMap) (key value : String)
    (h : key ∉ m.map Prod.fst) : m.assign key value = m ++ [(key, value)] := by
  unfold UnorderedMap.assign
  have hany : m.any (fun e => e.1 == key) = false := by
    rw [List.any_eq_false]
    intro e he heq
    apply h
    have : e.1 = key := by simpa using heq
    exact this ▸ List.mem_map_of_mem Prod.fst he
  simp [hany]

theorem writeDefinePairs_append (pairs : List (String × String)) :
    ∀ (n : Nat) (obj : ShaderImportOptions),
      ((obj.mDefines ++ pairs).map Prod.fst).Nodup →
      (List.enumFrom n (pairs.map some)).foldl
        (fun o p => match p.2 with
          | some val => ShaderImportOptionsRTTI.setDefinePair o p.1 val
          | none => o) obj = { mDefines := obj.mDefines ++ pairs } := by
  induction pairs with
  | nil => intro n obj _; simp
  | cons p ps ih =>
    intro n obj hnd
    have hfresh : p.1 ∉ obj.mDefines.map Prod.fst := by
      intro hmem
      rw [List.map_append, List.nodup_append] at hnd
      exact hnd.2.2 hmem (by simp)
    simp only [List.map_cons, List.enumFrom_cons, List.foldl_cons]
    have hstep : ShaderImportOptionsRTTI.setDefinePair obj n p =
        { mDefines := obj.mDefines ++ [p] } := by
      unfold ShaderImportOptionsRTTI.setDefinePair ShaderImportOptions.getDefines
      rw [assign_fresh_key obj.mDefines p.1 p.2 hfresh]
    rw [hstep, ih (n + 1) { mDefines := obj.mDefines ++ [p] } (by simpa using hnd)]
    simp

/-- C8 as stated fails on an RTTI instance that has already served a serialization: after the
serialization of an object with defines `A = 1` on the instance, the round trip of the
mapping `B = 2` through the same instance restores the mapping `A = 1`, so the key `B` is
lost and the key `A` appears. -/
theorem defines_round_trip_stale_instance_counterexample :
    ¬ (∀ (rtti : ShaderImportOptionsRTTI) (m : UnorderedMap), m.WF →
        ∀ key,
          (ShaderImportOptionsRTTI.writeDefinePairs ShaderImportOptionsRTTI.newRTTIObject
            ((rtti.onSerializationStarted { mDefines := m }).readDefinePairs
              { mDefines := m })).getDefines.find key = m.find key) ∧
    ShaderImportOptionsRTTI.writeDefinePairs ShaderImportOptionsRTTI.newRTTIObject
        (((ShaderImportOptionsRTTI.new.onSerializationStarted
            { mDefines := [("A", "1")] }).onSerializationStarted
            { mDefines := [("B", "2")] }).readDefinePairs { mDefines := [("B", "2")] }) =
      { mDefines := [("A", "1")] } := by
  have hread : ((ShaderImportOptionsRTTI.new.onSerializationStarted
        { mDefines := [("A", "1")] }).onSerializationStarted
        { mDefines := [("B", "2")] }).readDefinePairs { mDefines := [("B", "2")] } =
      List.map some [("A", "1")] := by
    simp [ShaderImportOptionsRTTI.readDefinePairs, ShaderImportOptionsRTTI.getDefinePair,
      ShaderImportOptionsRTTI.getNumDefines, onSerializationStarted_pairs,
      ShaderImportOptionsRTTI.new, ShaderImportOptions.getDefines, List.range_succ]
  have hval : ShaderImportOptionsRTTI.writeDefinePairs ShaderImportOptionsRTTI.newRTTIObject
        (((ShaderImportOptionsRTTI.new.onSerializationStarted
            { mDefines := [("A", "1")] }).onSerializationStarted
            { mDefines := [("B", "2")] }).readDefinePairs { mDefines := [("B", "2")] }) =
      { mDefines := [("A", "1")] } := by
    rw [hread]
    unfold ShaderImportOptionsRTTI.writeDefinePairs List.enum
    rw [writeDefinePairs_append [("A", "1")] 0 ShaderImportOptionsRTTI.newRTTIObject
      (by simp [ShaderImportOptionsRTTI.newRTTIObject])]
    simp [ShaderImportOptionsRTTI.newRTTIObject]
  refine ⟨?_, hval⟩
  intro hall
  have h := hall (ShaderImportOptionsRTTI.new.onSerializationStarted
    { mDefines := [("A", "1")] }) [("B", "2")] (by simp [UnorderedMap.WF]) "B"
  rw [hval] at h
  simp [ShaderImportOptions.getDefines, UnorderedMap.find] at h

/-- C8, amended: for every defines mapping `m` (keys pairwise distinct) held by an object and
every `ShaderImportOptionsRTTI` instance whose pair vector is empty (no serialization was
started on it before), `onSerializationStarted`, then `getDefinePair` for every index below
`getNumDefines`, then `setDefinePair` of each pair on a newly created `ShaderImportOptions`
yields a mapping with the same key set and the same value for every key. -/
theorem defines_round_trip (rtti : ShaderImportOptionsRTTI) (m : UnorderedMap)
    (hfresh : rtti.mDefinePairs = []) (hm : m.WF) :
    (∀ key,
      key ∈ (ShaderImportOptionsRTTI.writeDefinePairs ShaderImportOptionsRTTI.newRTTIObject
        ((rtti.onSerializationStarted { mDefines := m }).readDefinePairs
          { mDefines := m })).getDefines.map Prod.fst ↔ key ∈ m.map Prod.fst) ∧
    (∀ key,
      (ShaderImportOptionsRTTI.writeDefinePairs ShaderImportOptionsRTTI.newRTTIObject
        ((rtti.onSerializationStarted { mDefines := m }).readDefinePairs
          { mDefines := m })).getDefines.find key = m.find key) ∧
    (ShaderImportOptionsRTTI.writeDefinePairs ShaderImportOptionsRTTI.newRTTIObject
        ((rtti.onSerializationStarted { mDefines := m }).readDefinePairs
          { mDefines := m })).getDefines.WF := by
  have hread : (rtti.onSerializationStarted { mDefines := m }).readDefinePairs
      { mDefines := m } = m.map some :=
    readDefinePairs_fresh rtti { mDefines := m } hfresh
  have hrestored : ShaderImportOptionsRTTI.writeDefinePairs
      ShaderImportOptionsRTTI.newRTTIObject
      ((rtti.onSerializationStarted { mDefines := m }).readDefinePairs { mDefines := m }) =
      { mDefines := m } := by
    rw [hread]
    unfold ShaderImportOptionsRTTI.writeDefinePairs List.enum
    rw [writeDefinePairs_append m 0 ShaderImportOptionsRTTI.newRTTIObject
      (by simpa [ShaderImportOptionsRTTI.newRTTIObject] using hm)]
    simp [ShaderImportOptionsRTTI.newRTTIObject]
  rw [hrestored]
  exact ⟨fun _ => Iff.rfl, fun _ => rfl, hm⟩

theorem defines_round_trip_witness :
    UnorderedMap.WF [("A", "1"), ("B", "2")] ∧
    ∀ key,
      (ShaderImportOptionsRTTI.writeDefinePairs ShaderImportOptionsRTTI.newRTTIObject
        ((ShaderImportOptionsRTTI.new.onSerializationStarted
            { mDefines := [("A", "1"), ("B", "2")] }).readDefinePairs
          { mDefines := [("A", "1"), ("B", "2")] })).getDefines.find key =
      UnorderedMap.find [("A", "1"), ("B", "2")] key :=
  have hwf : UnorderedMap.WF [("A", "1"), ("B", "2")] := by
    simp [UnorderedMap.WF]
  ⟨hwf, (defines_round_trip ShaderImportOptionsRTTI.new [("A", "1"), ("B", "2")] rfl hwf).2.1⟩

/-- C10 as stated fails: an RTTI instance that has already served the serialization of an
object with defines `A = 1` reports, for an object with defines `B = 2`, the stale pair
`A = 1` instead of the entry of the object. -/
theorem flatten_stale_instance_counterexample :
    ¬ (∀ (rtti : ShaderImportOptionsRTTI) (obj : ShaderImportOptions),
        (rtti.onSerializationStarted obj).readDefinePairs obj = obj.getDefines.map some) ∧
    ((ShaderImportOptionsRTTI.new.onSerializationStarted
        { mDefines := [("A", "1")] }).onSerializationStarted
        { mDefines := [("B", "2")] }).readDefinePairs { mDefines := [("B", "2")] } =
      [some ("A", "1")] := by
  have hval : ((ShaderImportOptionsRTTI.new.onSerializationStarted
        { mDefines := [("A", "1")] }).onSerializationStarted
        { mDefines := [("B", "2")] }).readDefinePairs { mDefines := [("B", "2")] } =
      [some ("A", "1")] := by
    simp [ShaderImportOptionsRTTI.readDefinePairs, ShaderImportOptionsRTTI.getDefinePair,
      ShaderImportOptionsRTTI.getNumDefines, onSerializationStarted_pairs,
      ShaderImportOptionsRTTI.new, ShaderImportOptions.getDefines, List.range_succ]
  refine ⟨?_, hval⟩
  intro hall
  have h := hall (ShaderImportOptionsRTTI.new.onSerializationStarted
    { mDefines := [("A", "1")] }) { mDefines := [("B", "2")] }
  rw [hval] at h
  simp [ShaderImportOptions.getDefines] at h

/-- C10, amended: on an RTTI instance whose pair vector is empty (no serialization was started
on it before), after `onSerializationStarted(obj)` the pairs `getDefinePair(obj, i)` for `i`
below `getNumDefines(obj)` are exactly the entries of the defines of `obj`, each once, in
iteration order. -/
theorem flatten_on_fresh_instance (rtti : ShaderImportOptionsRTTI)
    (obj : ShaderImportOptions) (h : rtti.mDefinePairs = []) :
    (rtti.onSerializationStarted obj).readDefinePairs obj = obj.getDefines.map some ∧
    ((rtti.onSerializationStarted obj).readDefinePairs obj).length =
      ShaderImportOptionsRTTI.getNumDefines obj := by
  have hread := readDefinePairs_fresh rtti obj h
  refine ⟨hread, ?_⟩
  rw [hread, List.length_map]
  rfl

theorem flatten_on_fresh_instance_witness :
    (ShaderImportOptionsRTTI.new.onSerializationStarted
        { mDefines := [("A", "1"), ("B", "2")] }).readDefinePairs
      { mDefines := [("A", "1"), ("B", "2")] } =
      [some ("A", "1"), some ("B", "2")] :=
  (flatten_on_fresh_instance ShaderImportOptionsRTTI.new
    { mDefines := [("A", "1"), ("B", "2")] } rfl).1

/-! ## Particle texture pool: one call -/

theorem resolve_fst (pool : ParticleTexturePool) (size : Nat) :
    (pool.resolve size).1 =
      if h : pool.cursor size < (pool.bundles size).length then
        (pool.bundles size)[pool.cursor size]
      else pool.mAlloc.length := by
  unfold ParticleTexturePool.resolve ParticleTexturePool.cursor ParticleTexturePool.bundles
  by_cases h : (pool.mBufferList size).nextFreeIdx < (pool.mBufferList size).buffers.length
  · simp [h, List.getElem?_eq_getElem h]
  · simp [h, ParticleTexturePool.createNewTextures]

theorem resolve_bundles (pool : ParticleTexturePool) (size s : Nat) :
    (pool.resolve size).2.bundles s =
      if s = size ∧ ¬ pool.cursor size < (pool.bundles size).length then
        pool.bundles s ++ [pool.mAlloc.length]
      else pool.bundles s := by
  unfold ParticleTexturePool.resolve ParticleTexturePool.cursor ParticleTexturePool.bundles
  by_cases h : (pool.mBufferList size).nextFreeIdx < (pool.mBufferList size).buffers.length
  · by_cases hs : s = size
    · subst hs
      simp [h, List.getElem?_eq_getElem h, ParticleTexturePool.advance]
    · simp [h, hs, List.getElem?_eq_getElem h, ParticleTexturePool.advance]
  · by_cases hs : s = size
    · subst hs
      simp [h, ParticleTexturePool.createNewTextures, ParticleTexturePool.advance]
    · simp [h, hs, ParticleTexturePool.createNewTextures, ParticleTexturePool.advance]

theorem resolve_cursor (pool : ParticleTexturePool) (size s : Nat) :
    (pool.resolve size).2.cursor s =
      if s = size then pool.cursor s + 1 else pool.cursor s := by
  unfold ParticleTexturePool.resolve ParticleTexturePool.cursor
  by_cases h : (pool.mBufferList size).nextFreeIdx < (pool.mBufferList size).buffers.length
  · by_cases hs : s = size
    · subst hs
      simp [h, List.getElem?_eq_getElem h, ParticleTexturePool.advance]
    · simp [h, hs, List.getElem?_eq_getElem h, ParticleTexturePool.advance]
  · by_cases hs : s = size
    · subst hs
      simp [h, ParticleTexturePool.createNewTextures, ParticleTexturePool.advance]
    · simp [h, hs, ParticleTexturePool.createNewTextures, ParticleTexturePool.advance]

theorem resolve_mAlloc (pool : ParticleTexturePool) (size : Nat) :
    (pool.resolve size).2.mAlloc =
      if pool.cursor size < (pool.bundles size).length then pool.mAlloc
      else pool.mAlloc ++ [ParticleTexturePool.newParticleTextures size] := by
  unfold ParticleTexturePool.resolve ParticleTexturePool.cursor ParticleTexturePool.bundles
  by_cases h : (pool.mBufferList size).nextFreeIdx < (pool.mBufferList size).buffers.length
  · simp [h, List.getElem?_eq_getElem h, ParticleTexturePool.advance]
  · simp [h, ParticleTexturePool.createNewTextures, ParticleTexturePool.advance]

theorem alloc_pool (pool : ParticleTexturePool) (sd : ParticleCPUSimulationData) :
    (pool.alloc sd).pool = (pool.resolve sd.color.getWidth).2 := rfl

theorem alloc_output (pool : ParticleTexturePool) (sd : ParticleCPUSimulationData) :
    (pool.alloc sd).output = (pool.resolve sd.color.getWidth).1 := rfl

theorem clear_bundles (pool : ParticleTexturePool) (s : Nat) :
    pool.clear.bundles s = pool.bundles s := rfl

theorem clear_cursor (pool : ParticleTexturePool) (s : Nat) :
    pool.clear.cursor s = 0 := rfl

theorem clear_mAlloc (pool : ParticleTexturePool) : pool.clear.mAlloc = pool.mAlloc := rfl

theorem resolve_cursor_le (pool : ParticleTexturePool) (size s : Nat)
    (h : pool.cursor s ≤ (pool.bundles s).length) :
    (pool.resolve size).2.cursor s ≤ ((pool.resolve size).2.bundles s).length := by
  rw [resolve_cursor, resolve_bundles]
  by_cases hs : s = size
  · subst hs
    by_cases hlt : pool.cursor s < (pool.bundles s).length
    · simp [hlt]; omega
    · simp [hlt]; omega
  · simp [hs, h]

theorem resolve_WF (pool : ParticleTexturePool) (size : Nat) (h : pool.WF) :
    (pool.resolve size).2.WF := by
  intro s
  obtain ⟨hc, hb, hn⟩ := h s
  refine ⟨resolve_cursor_le pool size s hc, ?_, ?_⟩
  · rw [resolve_bundles, resolve_mAlloc]
    by_cases hlt : pool.cursor size < (pool.bundles size).length
    · simpa [hlt] using hb
    · intro b hmem
      by_cases hs : s = size
      · simp only [hs, hlt, not_false_eq_true, and_self, if_true, List.mem_append,
          List.mem_singleton] at hmem
        simp only [hlt, if_false, List.length_append, List.length_singleton]
        rcases hmem with hold | rfl
        · have := hb b (hs ▸ hold)
          omega
        · omega
      · simp only [hs, false_and, if_false] at hmem
        simp only [hlt, if_false, List.length_append, List.length_singleton]
        have := hb b hmem
        omega
  · rw [resolve_bundles]
    by_cases hcase : s = size ∧ ¬ pool.cursor size < (pool.bundles size).length
    · rw [if_pos hcase]
      refine List.Nodup.append hn (List.nodup_singleton _) ?_
      intro b hb1 hb2
      have hlt := hb b hb1
      have : b = pool.mAlloc.length := by simpa using hb2
      omega
    · rw [if_neg hcase]
      exact hn

theorem clear_WF (pool : ParticleTexturePool) (h : pool.WF) : pool.clear.WF := by
  intro s
  obtain ⟨_, hb, hn⟩ := h s
  exact ⟨by rw [clear_cursor]; exact Nat.zero_le _, hb, hn⟩

theorem empty_WF : ParticleTexturePool.empty.WF := by
  intro s
  simp [ParticleTexturePool.empty, ParticleTexturePool.cursor, ParticleTexturePool.bundles]

theorem apply_WF (pool : ParticleTexturePool) (call : PoolCall) (h : pool.WF) :
    (call.apply pool).WF := by
  cases call with
  | alloc sd => exact resolve_WF pool sd.color.getWidth h
  | clear => exact clear_WF pool h

theorem runCalls_WF (calls : List PoolCall) :
    ∀ pool : ParticleTexturePool, pool.WF → (runCalls pool calls).WF := by
  induction calls with
  | nil => intro pool h; exact h
  | cons c cs ih => intro pool h; exact ih _ (apply_WF pool c h)

theorem runCalls_append (pool : ParticleTexturePool) (a b : List PoolCall) :
    runCalls pool (a ++ b) = runCalls (runCalls pool a) b := by
  unfold runCalls
  rw [List.foldl_append]

theorem runCalls_cons (pool : ParticleTexturePool) (c : PoolCall) (cs : List PoolCall) :
    runCalls pool (c :: cs) = runCalls (c.apply pool) cs := rfl

theorem apply_bundles_extend (pool : ParticleTexturePool) (call : PoolCall) (s : Nat) :
    pool.bundles s <+: (call.apply pool).bundles s := by
  cases call with
  | clear => exact List.prefix_refl _
  | alloc sd =>
    show pool.bundles s <+: (pool.resolve sd.color.getWidth).2.bundles s
    rw [resolve_bundles]
    split
    · exact List.prefix_append _ _
    · exact List.prefix_refl _

theorem runCalls_bundles_extend (calls : List PoolCall) (s : Nat) :
    ∀ pool : ParticleTexturePool, pool.bundles s <+: (runCalls pool calls).bundles s := by
  induction calls with
  | nil => intro pool; exact List.prefix_refl _
  | cons c cs ih =>
    intro pool
    exact (apply_bundles_extend pool c s).trans (ih _)

theorem runCalls_cursor_mono (calls : List PoolCall) (s : Nat)
    (hframe : ∀ c ∈ calls, c.isClear = false) :
    ∀ pool : ParticleTexturePool, pool.cursor s ≤ (runCalls pool calls).cursor s := by
  induction calls with
  | nil => intro pool; exact Nat.le_refl _
  | cons c cs ih =>
    intro pool
    have hcs : ∀ c ∈ cs, c.isClear = false := fun c hc => hframe c (List.mem_cons_of_mem _ hc)
    refine Nat.le_trans ?_ (ih hcs _)
    cases c with
    | clear => exact absurd (hframe .clear (List.mem_cons_self _ _)) (by simp [PoolCall.isClear])
    | alloc sd =>
      show pool.cursor s ≤ (pool.resolve sd.color.getWidth).2.cursor s
      rw [resolve_cursor]
      split <;> omega

theorem resolve_output_at (pool : ParticleTexturePool) (size : Nat) (h : pool.WF) :
    ((pool.resolve size).2.bundles size)[pool.cursor size]? = some (pool.resolve size).1 := by
  rw [resolve_bundles, resolve_fst]
  by_cases hlt : pool.cursor size < (pool.bundles size).length
  · simp [hlt, List.getElem?_eq_getElem hlt]
  · have heq : pool.cursor size = (pool.bundles size).length :=
      Nat.le_antisymm (h size).1 (Nat.not_lt.mp hlt)
    simp [hlt, heq]

/-! ## Particle texture pool: sequences of calls -/

theorem handedOut_slice (size : Nat) (calls : List PoolCall)
    (hframe : ∀ c ∈ calls, c.isClear = false) :
    ∀ pool : ParticleTexturePool, pool.WF →
      handedOut size pool calls =
        (((runCalls pool calls).bundles size).take
          ((runCalls pool calls).cursor size)).drop (pool.cursor size) := by
  induction calls with
  | nil =>
    intro pool _
    simp [handedOut, runCalls, List.drop_eq_nil_iff]
  | cons c cs ih =>
    intro pool hwf
    have hcs : ∀ c ∈ cs, c.isClear = false := fun c hc => hframe c (List.mem_cons_of_mem _ hc)
    cases c with
    | clear => exact absurd (hframe .clear (List.mem_cons_self _ _)) (by simp [PoolCall.isClear])
    | alloc sd =>
      have hwf1 : (pool.alloc sd).pool.WF := resolve_WF pool sd.color.getWidth hwf
      have ih1 := ih hcs (pool.alloc sd).pool hwf1
      rw [runCalls_cons]
      show handedOut size pool (.alloc sd :: cs) = _
      by_cases hs : sd.color.getWidth = size
      · have hout : handedOut size pool (.alloc sd :: cs) =
            (pool.alloc sd).output :: handedOut size (pool.alloc sd).pool cs := by
          simp [handedOut, hs]
        rw [hout, ih1]
        have hcur1 : (pool.alloc sd).pool.cursor size = pool.cursor size + 1 := by
          rw [alloc_pool, resolve_cursor, hs]; simp
        have hmono := runCalls_cursor_mono cs size hcs (pool.alloc sd).pool
        have hwf2 := runCalls_WF cs (pool.alloc sd).pool hwf1
        have hle := (hwf2 size).1
        have hat : ((pool.alloc sd).pool.bundles size)[pool.cursor size]? =
            some (pool.alloc sd).output := by
          have := resolve_output_at pool size hwf
          rw [alloc_pool, alloc_output, hs]
          exact this
        obtain ⟨t, ht⟩ := runCalls_bundles_extend cs size (pool.alloc sd).pool
        have hlt1 : pool.cursor size < ((pool.alloc sd).pool.bundles size).length := by
          by_contra hge
          rw [List.getElem?_eq_none (Nat.not_lt.mp hge)] at hat
          exact Option.noConfusion hat
        have hat2 : ((runCalls (pool.alloc sd).pool cs).bundles size)[pool.cursor size]? =
            some (pool.alloc sd).output := by
          rw [← ht, List.getElem?_append_left hlt1]
          exact hat
        show _ = List.drop (pool.cursor size)
          (List.take ((runCalls (pool.alloc sd).pool cs).cursor size)
            ((runCalls (pool.alloc sd).pool cs).bundles size))
        have hlen : pool.cursor size <
            (List.take ((runCalls (pool.alloc sd).pool cs).cursor size)
              ((runCalls (pool.alloc sd).pool cs).bundles size)).length := by
          rw [List.length_take]
          omega
        rw [List.drop_eq_getElem_cons hlen, hcur1]
        congr 1
        rw [List.getElem_take]
        have hlt2 : pool.cursor size <
            ((runCalls (pool.alloc sd).pool cs).bundles size).length := by omega
        rw [List.getElem?_eq_getElem hlt2] at hat2
        exact (Option.some.inj hat2).symm
      · have hout : handedOut size pool (.alloc sd :: cs) =
            handedOut size (pool.alloc sd).pool cs := by
          simp [handedOut, hs]
        have hcur1 : (pool.alloc sd).pool.cursor size = pool.cursor size := by
          rw [alloc_pool, resolve_cursor, if_neg (fun h => hs h.symm)]
        rw [hout, ih1, hcur1]
        rfl

theorem runCalls_empty_WF (calls : List PoolCall) :
    (runCalls ParticleTexturePool.empty calls).WF :=
  runCalls_WF calls _ empty_WF

/-- C2: from every pool state reached from the empty pool by `alloc` and `clear` calls, the
`alloc` calls for one tile size made with no `clear` between them (allocations for other
sizes may be interleaved) return pairwise different bundles, and each `alloc` for the size
moves the cursor of its bucket up by exactly one. -/
theorem alloc_distinct_within_frame (history frame : List PoolCall) (size : Nat)
    (hframe : ∀ c ∈ frame, c.isClear = false) :
    (handedOut size (runCalls ParticleTexturePool.empty history) frame).Nodup ∧
    ∀ sd : ParticleCPUSimulationData, sd.color.getWidth = size →
      ((runCalls ParticleTexturePool.empty history).alloc sd).pool.cursor size =
        (runCalls ParticleTexturePool.empty history).cursor size + 1 := by
  constructor
  · have hwf := runCalls_empty_WF history
    rw [handedOut_slice size frame hframe _ hwf]
    have hwf2 := runCalls_WF frame _ hwf
    exact ((hwf2 size).2.2.sublist (List.take_sublist _ _)).sublist (List.drop_sublist _ _)
  · intro sd hsd
    rw [alloc_pool, resolve_cursor, hsd]
    simp

/-- C5: in every pool state reached from the empty pool by `alloc` and `clear` calls, every
bucket has `nextFreeIdx` at most the number of its bundles; `alloc` (on either branch) and
`clear` preserve this. -/
theorem cursor_invariant (calls : List PoolCall) (size : Nat) :
    (runCalls ParticleTexturePool.empty calls).cursor size ≤
      ((runCalls ParticleTexturePool.empty calls).bundles size).length ∧
    (∀ (pool : ParticleTexturePool) (sd : ParticleCPUSimulationData),
      pool.cursor size ≤ (pool.bundles size).length →
      (pool.alloc sd).pool.cursor size ≤ ((pool.alloc sd).pool.bundles size).length) ∧
    (∀ pool : ParticleTexturePool,
      pool.clear.cursor size ≤ (pool.clear.bundles size).length) := by
  refine ⟨(runCalls_empty_WF calls size).1, ?_, ?_⟩
  · intro pool sd h
    exact resolve_cursor_le pool sd.color.getWidth size h
  · intro pool
    rw [clear_cursor]
    exact Nat.zero_le _

theorem runCalls_cursor_frame (calls : List PoolCall) (s : Nat)
    (hframe : ∀ c ∈ calls, c.isClear = false) :
    ∀ pool : ParticleTexturePool,
      (runCalls pool calls).cursor s = pool.cursor s + allocCount s calls := by
  induction calls with
  | nil => intro pool; simp [runCalls, allocCount]
  | cons c cs ih =>
    intro pool
    have hcs : ∀ c ∈ cs, c.isClear = false := fun c hc => hframe c (List.mem_cons_of_mem _ hc)
    cases c with
    | clear => exact absurd (hframe .clear (List.mem_cons_self _ _)) (by simp [PoolCall.isClear])
    | alloc sd =>
      rw [runCalls_cons, ih hcs]
      show (pool.resolve sd.color.getWidth).2.cursor s + allocCount s cs = _
      rw [resolve_cursor]
      unfold allocCount
      rw [List.countP_cons]
      by_cases hs : s = sd.color.getWidth
      · simp [hs, PoolCall.isAllocFor]; omega
      · have hs2 : ¬ sd.color.getWidth = s := fun h => hs h.symm
        simp [hs, hs2, PoolCall.isAllocFor]

theorem runCalls_other_sizes (calls : List PoolCall) (s : Nat)
    (hother : ∀ c ∈ calls, c.isClear = false ∧ c.isAllocFor s = false) :
    ∀ pool : ParticleTexturePool,
      (runCalls pool calls).bundles s = pool.bundles s ∧
      (runCalls pool calls).cursor s = pool.cursor s := by
  induction calls with
  | nil => intro pool; exact ⟨rfl, rfl⟩
  | cons c cs ih =>
    intro pool
    have hcs : ∀ c ∈ cs, c.isClear = false ∧ c.isAllocFor s = false :=
      fun c hc => hother c (List.mem_cons_of_mem _ hc)
    have hc := hother c (List.mem_cons_self _ _)
    cases c with
    | clear => exact absurd hc.1 (by simp [PoolCall.isClear])
    | alloc sd =>
      have hs : ¬ s = sd.color.getWidth := by
        intro h
        have := hc.2
        simp [PoolCall.isAllocFor, h] at this
      rw [runCalls_cons]
      obtain ⟨hb, hcur⟩ := ih hcs (PoolCall.apply pool (.alloc sd))
      rw [hb, hcur]
      show (pool.resolve sd.color.getWidth).2.bundles s = _ ∧
        (pool.resolve sd.color.getWidth).2.cursor s = _
      rw [resolve_bundles, resolve_cursor]
      simp [hs]

theorem cursor_at_frame_start (history : List PoolCall) (h : endsFrame history = true)
    (s : Nat) : (runCalls ParticleTexturePool.empty history).cursor s = 0 := by
  rcases List.eq_nil_or_concat history with rfl | ⟨init, last, rfl⟩
  · rfl
  · have hlast : last.isClear = true := by
      simpa [endsFrame, List.concat_eq_append, List.getLast?_append] using h
    cases last with
    | alloc sd => simp [PoolCall.isClear] at hlast
    | clear =>
      rw [List.concat_eq_append, runCalls_append]
      rfl

/-- C3: when a frame (a run of calls without `clear` that starts at the empty pool or right
after a `clear`) holds at least one `alloc` for a tile size, the first `alloc` for that size
after the following `clear()` returns the bundle that the first `alloc` for the size returned
in that frame, and creates no bundle: the bundle list of the bucket and the set of
constructed objects are left as they were. -/
theorem first_alloc_after_clear_reuses (history frame later : List PoolCall)
    (sd : ParticleCPUSimulationData)
    (hstart : endsFrame history = true)
    (hframe : ∀ c ∈ frame, c.isClear = false)
    (hused : 0 < allocCount sd.color.getWidth frame)
    (hlater : ∀ c ∈ later, c.isClear = false ∧ c.isAllocFor sd.color.getWidth = false) :
    (handedOut sd.color.getWidth (runCalls ParticleTexturePool.empty history) frame).head? =
      some ((runCalls ParticleTexturePool.empty
        (history ++ frame ++ [PoolCall.clear] ++ later)).alloc sd).output ∧
    ((runCalls ParticleTexturePool.empty
        (history ++ frame ++ [PoolCall.clear] ++ later)).alloc sd).pool.bundles
          sd.color.getWidth =
      (runCalls ParticleTexturePool.empty
        (history ++ frame ++ [PoolCall.clear] ++ later)).bundles sd.color.getWidth ∧
    ((runCalls ParticleTexturePool.empty
        (history ++ frame ++ [PoolCall.clear] ++ later)).alloc sd).pool.mAlloc =
      (runCalls ParticleTexturePool.empty
        (history ++ frame ++ [PoolCall.clear] ++ later)).mAlloc := by
  generalize hS : sd.color.getWidth = S at *
  generalize hp0 : runCalls ParticleTexturePool.empty history = p0
  have hwf0 : p0.WF := hp0 ▸ runCalls_empty_WF history
  have hc0 : p0.cursor S = 0 := hp0 ▸ cursor_at_frame_start history hstart S
  generalize hp1 : runCalls p0 frame = p1
  have hwf1 : p1.WF := hp1 ▸ runCalls_WF frame p0 hwf0
  have hc1 : p1.cursor S = allocCount S frame := by
    rw [← hp1, runCalls_cursor_frame frame S hframe, hc0, Nat.zero_add]
  have hlen1 : 0 < (p1.bundles S).length := by
    have := (hwf1 S).1
    omega
  have hbefore : runCalls ParticleTexturePool.empty
      (history ++ frame ++ [PoolCall.clear] ++ later) = runCalls p1.clear later := by
    rw [runCalls_append, runCalls_append, runCalls_append, hp0, hp1]
    rfl
  rw [hbefore]
  obtain ⟨hb3, hc3⟩ := runCalls_other_sizes later S hlater p1.clear
  rw [clear_bundles] at hb3
  rw [clear_cursor] at hc3
  have hlt3 : (runCalls p1.clear later).cursor S <
      ((runCalls p1.clear later).bundles S).length := by
    rw [hb3, hc3]; exact hlen1
  refine ⟨?_, ?_, ?_⟩
  · rw [handedOut_slice S frame hframe p0 hwf0, hp1, hc0, List.drop_zero, alloc_output, hS,
      resolve_fst, dif_pos hlt3]
    simp only [hb3, hc3]
    rw [List.head?_take, if_neg (by omega), List.head?_eq_getElem?,
      List.getElem?_eq_getElem hlen1]
  · rw [alloc_pool, hS, resolve_bundles]
    simp [hlt3]
  · rw [alloc_pool, hS, resolve_mAlloc, if_pos hlt3]

theorem alloc_distinct_within_frame_witness :
    handedOut 4
        (runCalls ParticleTexturePool.empty
          [.alloc (sampleData 4 3), .alloc (sampleData 4 3), .clear])
        [.alloc (sampleData 4 1), .alloc (sampleData 2 1), .alloc (sampleData 4 2),
          .alloc (sampleData 4 5)] = [0, 1, 3] ∧
    (handedOut 4
        (runCalls ParticleTexturePool.empty
          [.alloc (sampleData 4 3), .alloc (sampleData 4 3), .clear])
        [.alloc (sampleData 4 1), .alloc (sampleData 2 1), .alloc (sampleData 4 2),
          .alloc (sampleData 4 5)]).Nodup :=
  ⟨by decide,
    (alloc_distinct_within_frame
      [.alloc (sampleData 4 3), .alloc (sampleData 4 3), .clear]
      [.alloc (sampleData 4 1), .alloc (sampleData 2 1), .alloc (sampleData 4 2),
        .alloc (sampleData 4 5)] 4 (by decide)).1⟩

theorem first_alloc_after_clear_reuses_witness :
    (handedOut 4 (runCalls ParticleTexturePool.empty [.alloc (sampleData 2 1), .clear])
        [.alloc (sampleData 2 2), .alloc (sampleData 4 3), .alloc (sampleData 4 1)]).head? =
      some ((runCalls ParticleTexturePool.empty
        ([.alloc (sampleData 2 1), .clear] ++
          [.alloc (sampleData 2 2), .alloc (sampleData 4 3), .alloc (sampleData 4 1)] ++
          [PoolCall.clear] ++ [.alloc (sampleData 2 1)])).alloc (sampleData 4 7)).output ∧
    ((runCalls ParticleTexturePool.empty
        ([.alloc (sampleData 2 1), .clear] ++
          [.alloc (sampleData 2 2), .alloc (sampleData 4 3), .alloc (sampleData 4 1)] ++
          [PoolCall.clear] ++ [.alloc (sampleData 2 1)])).alloc (sampleData 4 7)).output = 1 :=
  ⟨(first_alloc_after_clear_reuses [.alloc (sampleData 2 1), .clear]
      [.alloc (sampleData 2 2), .alloc (sampleData 4 3), .alloc (sampleData 4 1)]
      [.alloc (sampleData 2 1)] (sampleData 4 7)
      (by decide) (by decide) (by decide) (by decide)).1, by decide⟩

/-! ## Particle texture pool: high-water mark -/

theorem peakFrom_ge (size : Nat) (calls : List PoolCall) :
    ∀ current : Nat, current ≤ peakFrom size current calls := by
  induction calls with
  | nil => intro current; exact Nat.le_refl _
  | cons c cs ih =>
    intro current
    cases c with
    | clear => exact Nat.le_max_left _ _
    | alloc sd =>
      unfold peakFrom
      split
      · exact Nat.le_trans (Nat.le_succ _) (ih _)
      · exact ih _

theorem peakFrom_clear (size current : Nat) (calls : List PoolCall) :
    peakFrom size current (.clear :: calls) = max current (peakFrom size 0 calls) := rfl

theorem peakFrom_alloc (size current : Nat) (sd : ParticleCPUSimulationData)
    (calls : List PoolCall) :
    peakFrom size current (.alloc sd :: calls) =
      if sd.color.getWidth = size then peakFrom size (current + 1) calls
      else peakFrom size current calls := rfl

theorem runCalls_length_peak (size : Nat) (calls : List PoolCall) :
    ∀ pool : ParticleTexturePool, pool.cursor size ≤ (pool.bundles size).length →
      ((runCalls pool calls).bundles size).length =
        max (pool.bundles size).length (peakFrom size (pool.cursor size) calls) := by
  induction calls with
  | nil =>
    intro pool h
    simp [runCalls, peakFrom, h]
  | cons c cs ih =>
    intro pool h
    rw [runCalls_cons]
    cases c with
    | clear =>
      show ((runCalls pool.clear cs).bundles size).length = _
      rw [ih pool.clear (by rw [clear_cursor]; exact Nat.zero_le _)]
      rw [clear_cursor, clear_bundles, peakFrom_clear]
      omega
    | alloc sd =>
      have hle := resolve_cursor_le pool sd.color.getWidth size h
      have ihp := ih (pool.alloc sd).pool hle
      show ((runCalls (pool.alloc sd).pool cs).bundles size).length = _
      rw [ihp, alloc_pool, resolve_cursor, resolve_bundles, peakFrom_alloc]
      by_cases hs : sd.color.getWidth = size
      · have hge := peakFrom_ge size cs (pool.cursor size + 1)
        by_cases hlt : pool.cursor size < (pool.bundles size).length
        · simp [hs, hlt]
        · simp only [hs, hlt, not_false_eq_true, and_self, if_true, List.length_append,
            List.length_singleton]
          omega
      · have hs2 : ¬ size = sd.color.getWidth := fun h => hs h.symm
        simp [hs, hs2]

theorem peakFrom_frames (size : Nat) (calls : List PoolCall) :
    ∀ current : Nat,
      peakFrom size current calls =
        match frames calls with
        | [] => current
        | frame :: rest =>
          max (current + allocCount size frame) ((rest.map (allocCount size)).foldr max 0) := by
  induction calls with
  | nil => intro current; simp [peakFrom, frames, allocCount]
  | cons c cs ih =>
    intro current
    cases c with
    | clear =>
      have ih0 := ih 0
      unfold peakFrom frames
      rw [ih0]
      cases frames cs with
      | nil => simp [allocCount]
      | cons f fs => simp [allocCount]
    | alloc sd =>
      unfold peakFrom frames
      by_cases hs : sd.color.getWidth = size
      · rw [if_pos hs, ih]
        cases frames cs with
        | nil => simp [allocCount, PoolCall.isAllocFor, hs]
        | cons f fs =>
          simp only [allocCount, List.countP_cons, PoolCall.isAllocFor, hs, beq_self_eq_true,
            if_true]
          congr 1
          omega
      · rw [if_neg hs, ih]
        cases frames cs with
        | nil => simp [allocCount, PoolCall.isAllocFor, hs]
        | cons f fs => simp [allocCount, List.countP_cons, PoolCall.isAllocFor, hs]

/-- C4: no call removes or reorders a bundle of a bucket or makes the bucket shorter (the
bundle list before a call is a prefix of the list after it), and after any sequence of
`alloc` and `clear` calls on the empty pool the number of bundles held for a tile size is
the largest number of `alloc` calls made for that size in one frame of the sequence. -/
theorem pool_grows_to_high_water_mark (calls : List PoolCall) (size : Nat) :
    (∀ (before : List PoolCall) (call : PoolCall),
      (runCalls ParticleTexturePool.empty before).bundles size <+:
        (runCalls ParticleTexturePool.empty (before ++ [call])).bundles size ∧
      ((runCalls ParticleTexturePool.empty before).bundles size).length ≤
        ((runCalls ParticleTexturePool.empty (before ++ [call])).bundles size).length) ∧
    ((runCalls ParticleTexturePool.empty calls).bundles size).length =
      highWaterMark size calls := by
  constructor
  · intro before call
    rw [runCalls_append]
    have hpre := apply_bundles_extend (runCalls ParticleTexturePool.empty before) call size
    exact ⟨hpre, hpre.length_le⟩
  · rw [runCalls_length_peak size calls ParticleTexturePool.empty (Nat.le_refl _),
      peakFrom_frames]
    unfold highWaterMark
    cases frames calls with
    | nil => rfl
    | cons f fs =>
      simp [ParticleTexturePool.empty, ParticleTexturePool.bundles,
        ParticleTexturePool.cursor]

/-! ## Particle texture pool: contents of the index buffer -/

theorem unpack_packIndex (x y : Nat) (hx : x < 2 ^ 16) (hy : y < 2 ^ 16) :
    unpackIndex (packIndex x y) = (x, y) := by
  unfold unpackIndex packIndex
  have hand : x &&& 0xFFFF = x := by
    have h := Nat.and_pow_two_sub_one_eq_mod x 16
    norm_num at h
    rw [h]
    omega
  have hshift : (y <<< 16) % 2 ^ 32 = 2 ^ 16 * y := by
    rw [Nat.shiftLeft_eq]
    omega
  rw [hand, hshift, Nat.lor_comm, ← Nat.mul_add_lt_is_or hx y]
  refine Prod.ext ?_ ?_
  · show (2 ^ 16 * y + x) % 2 ^ 16 = x
    omega
  · show (2 ^ 16 * y + x) / 2 ^ 16 % 2 ^ 16 = y
    omega

theorem unpackIndex_fst_lt (entry : Nat) : (unpackIndex entry).1 < 2 ^ 16 :=
  Nat.mod_lt _ (by decide)

theorem writeRow_spec (y : Nat) (count : Nat) :
    ∀ w : IndexWriter, w.idx + count < 2 ^ 32 →
      writeRow count y w =
        { idx := w.idx + count
          written := w.written ++
            (List.range count).map (fun x => (w.idx + x, packIndex x y)) } := by
  induction count with
  | zero => intro w _; simp [writeRow]
  | succ n ih =>
    intro w h
    have hn : w.idx + n < 2 ^ 32 := by omega
    have ihn := ih w hn
    unfold writeRow at ihn ⊢
    rw [List.range_succ, List.foldl_append, ihn]
    simp only [List.foldl_cons, List.foldl_nil, IndexWriter.put, List.map_append,
      List.map_cons, List.map_nil, List.append_assoc]
    congr 1
    omega

/-- Writing `count <= size` entries of row `y` after `y` full rows extends the row-major
listing of the tile by `count` positions. -/
theorem writeRow_tile (size y count : Nat) (hsize : 0 < size) (hcount : count ≤ size)
    (hfit : y * size + count < 2 ^ 32) :
    writeRow count y
        { idx := y * size
          written := (List.range (y * size)).map
            (fun i => (i, packIndex (i % size) (i / size))) } =
      { idx := y * size + count
        written := (List.range (y * size + count)).map
          (fun i => (i, packIndex (i % size) (i / size))) } := by
  rw [writeRow_spec y count _ hfit, List.range_add, List.map_append, List.map_map]
  congr 2
  apply List.map_congr_left
  intro x hx
  have hxs : x < size := Nat.lt_of_lt_of_le (List.mem_range.mp hx) hcount
  have hmod : (y * size + x) % size = x := by
    rw [Nat.mul_comm, Nat.mul_add_mod, Nat.mod_eq_of_lt hxs]
  have hdiv : (y * size + x) / size = y := by
    rw [Nat.mul_comm, Nat.mul_add_div hsize, Nat.div_eq_of_lt hxs, Nat.add_zero]
  simp only [Function.comp, hmod, hdiv]

theorem writeFullRows_spec (size : Nat) (hsize : 0 < size) (bound : Nat) :
    bound * size < 2 ^ 32 →
      writeFullRows size bound { idx := 0, written := [] } =
        { idx := bound * size
          written := (List.range (bound * size)).map
            (fun i => (i, packIndex (i % size) (i / size))) } := by
  induction bound with
  | zero => intro _; simp [writeFullRows]
  | succ n ih =>
    intro h
    have hle : n * size + size = (n + 1) * size := by rw [Nat.succ_mul]
    have hn : n * size < 2 ^ 32 := by omega
    have ihn := ih hn
    unfold writeFullRows at ihn ⊢
    rw [List.range_succ, List.foldl_append, ihn]
    simp only [List.foldl_cons, List.foldl_nil]
    rw [writeRow_tile size n size hsize (Nat.le_refl _) (by omega), hle]

theorem writeIndices_spec (numParticles size : Nat) (hsize : 0 < size)
    (hpos : 0 < numParticles) (hfit : numParticles < 2 ^ 32) :
    writeIndices numParticles size =
      (List.range numParticles).map (fun i => (i, packIndex (i % size) (i / size))) := by
  have hrows_pos : 0 < divideAndRoundUp numParticles size := by
    unfold divideAndRoundUp
    exact Nat.div_pos (by omega) hsize
  have hrows_le : divideAndRoundUp numParticles size ≤ numParticles := by
    unfold divideAndRoundUp
    refine Nat.div_le_of_le_mul (Nat.sub_le_of_le_add ?_)
    have h1 : 1 ≤ size := hsize
    have h2 : 1 ≤ numParticles := hpos
    nlinarith [Nat.mul_le_mul h1 h2, Nat.zero_le ((size - 1) * (numParticles - 1)),
      Nat.sub_add_cancel h1, Nat.sub_add_cancel h2]
  have hlow : (divideAndRoundUp numParticles size - 1) * size < numParticles := by
    have h1 : divideAndRoundUp numParticles size * size ≤ numParticles + size - 1 := by
      unfold divideAndRoundUp
      exact Nat.div_mul_le_self _ _
    have h2 : (divideAndRoundUp numParticles size - 1) * size + size =
        divideAndRoundUp numParticles size * size := by
      rw [← Nat.succ_mul]
      congr 1
      omega
    omega
  have hhigh : numParticles ≤ (divideAndRoundUp numParticles size - 1) * size + size := by
    have h2 : (divideAndRoundUp numParticles size - 1) * size + size =
        divideAndRoundUp numParticles size * size := by
      rw [← Nat.succ_mul]
      congr 1
      omega
    rw [h2]
    unfold divideAndRoundUp
    have h3 := Nat.lt_div_mul_add (a := numParticles + size - 1) hsize
    omega
  unfold writeIndices
  have hnumRows : divideAndRoundUp numParticles size % 2 ^ 32 =
      divideAndRoundUp numParticles size := Nat.mod_eq_of_lt (by omega)
  have hlast : (divideAndRoundUp numParticles size + 2 ^ 32 - 1) % 2 ^ 32 =
      divideAndRoundUp numParticles size - 1 := by omega
  simp only [hnumRows, hlast]
  generalize divideAndRoundUp numParticles size - 1 = lastRow at hlow hhigh
  have hrem : (numParticles + 2 ^ 32 - lastRow * size % 2 ^ 32) % 2 ^ 32 =
      numParticles - lastRow * size := by omega
  rw [hrem, writeFullRows_spec size hsize lastRow (by omega),
    writeRow_tile size lastRow (numParticles - lastRow * size) hsize (by omega) (by omega)]
  show List.map _ (List.range (lastRow * size + (numParticles - lastRow * size))) = _
  rw [Nat.add_sub_cancel' (Nat.le_of_lt hlow)]

/-- At tile size 65536 the element count `size * size` of the index buffer wraps to zero. -/
theorem elementCount_wraps :
    (ParticleTexturePool.newParticleTextures 65536).indices.elementCount = 0 := by
  decide

theorem indexStores_map_store (bundle : Nat) (ws : List (Nat × Nat)) (rest : List GpuEvent) :
    indexStores bundle (ws.map (fun w => GpuEvent.store bundle w.1 w.2) ++ rest) =
      ws ++ indexStores bundle rest := by
  induction ws with
  | nil => rfl
  | cons w ws ih => simp [indexStores, ih]

theorem indexStores_alloc (pool : ParticleTexturePool) (sd : ParticleCPUSimulationData) :
    indexStores (pool.alloc sd).output (pool.alloc sd).events =
      if 0 < sd.indices.length then writeIndices sd.indices.length sd.color.getWidth
      else [] := by
  unfold ParticleTexturePool.alloc
  by_cases h : 0 < sd.indices.length
  · simp only [gt_iff_lt, h, if_true, List.cons_append, List.nil_append, indexStores,
      List.append_assoc]
    rw [indexStores_map_store]
    simp [indexStores]
  · simp [h, indexStores]

/-- C1 as stated fails for a tile size that needs more than 16 bits: with tile size 65537 and
65537 live particles the entry written at position 65536 is `65536 & 0xFFFF = 0`, which
unpacks to `(0, 0)` and not to `(65536 mod 65537, 65536 div 65537) = (65536, 0)`. -/
theorem index_buffer_wide_tile_counterexample :
    ((indexStores (ParticleTexturePool.empty.alloc (sampleData 65537 65537)).output
        (ParticleTexturePool.empty.alloc (sampleData 65537 65537)).events).map
          (fun w => (w.1, unpackIndex w.2)))[65536]? = some (65536, (0, 0)) ∧
    ¬ ((indexStores (ParticleTexturePool.empty.alloc (sampleData 65537 65537)).output
        (ParticleTexturePool.empty.alloc (sampleData 65537 65537)).events).map
          (fun w => (w.1, unpackIndex w.2)) =
        (List.range 65537).map (fun i => (i, (i % 65537, i / 65537)))) := by
  have hlen : (sampleData 65537 65537).indices.length = 65537 := by
    simp [sampleData]
  have hwidth : (sampleData 65537 65537).color.getWidth = 65537 := rfl
  have hstores : indexStores (ParticleTexturePool.empty.alloc (sampleData 65537 65537)).output
      (ParticleTexturePool.empty.alloc (sampleData 65537 65537)).events =
      (List.range 65537).map (fun i => (i, packIndex (i % 65537) (i / 65537))) := by
    rw [indexStores_alloc, hlen, hwidth, if_pos (by decide)]
    exact writeIndices_spec 65537 65537 (by decide) (by decide) (by decide)
  have hentry : ((indexStores (ParticleTexturePool.empty.alloc (sampleData 65537 65537)).output
        (ParticleTexturePool.empty.alloc (sampleData 65537 65537)).events).map
          (fun w => (w.1, unpackIndex w.2)))[65536]? = some (65536, (0, 0)) := by
    rw [hstores, List.map_map, List.getElem?_map,
      List.getElem?_range (by decide : 65536 < 65537)]
    show some (65536, unpackIndex (packIndex (65536 % 65537) (65536 / 65537))) = _
    have hval : unpackIndex (packIndex (65536 % 65537) (65536 / 65537)) = (0, 0) := by decide
    rw [hval]
  refine ⟨hentry, ?_⟩
  intro hclaim
  rw [hclaim, List.getElem?_map, List.getElem?_range (by decide : 65536 < 65537)] at hentry
  revert hentry
  decide

/-- C1, amended: for every tile size `S` with `0 < S <= 65535` and every live-particle count
`N <= S * S`, `alloc` writes exactly `N` entries to the index buffer, at positions
`0, 1, ..., N - 1` in this order, entry `i` unpacks as (low 16 bits, high 16 bits) to
`(i mod S, i div S)`, and the `N` entries fit the `S * S mod 2 ^ 32` elements that
`createNewTextures` gives the index buffer of a bundle of that size. -/
theorem index_buffer_contents (pool : ParticleTexturePool) (sd : ParticleCPUSimulationData)
    (hpos : 0 < sd.color.getWidth) (h16 : sd.color.getWidth ≤ 65535)
    (hcount : sd.indices.length ≤ sd.color.getWidth * sd.color.getWidth) :
    (indexStores (pool.alloc sd).output (pool.alloc sd).events).map
        (fun w => (w.1, unpackIndex w.2)) =
      (List.range sd.indices.length).map
        (fun i => (i, (i % sd.color.getWidth, i / sd.color.getWidth))) ∧
    sd.indices.length ≤
      (ParticleTexturePool.newParticleTextures sd.color.getWidth).indices.elementCount := by
  have hsq : sd.color.getWidth * sd.color.getWidth ≤ 65535 * 65535 := Nat.mul_le_mul h16 h16
  have hfit : sd.indices.length < 2 ^ 32 := by omega
  constructor
  · rw [indexStores_alloc]
    by_cases hN : 0 < sd.indices.length
    · rw [if_pos hN, writeIndices_spec _ _ hpos hN hfit, List.map_map]
      apply List.map_congr_left
      intro i hi
      have hi' : i < sd.indices.length := List.mem_range.mp hi
      have hx : i % sd.color.getWidth < 2 ^ 16 := by
        have := Nat.mod_lt i hpos
        omega
      have hy : i / sd.color.getWidth < 2 ^ 16 := by
        have : i / sd.color.getWidth < sd.color.getWidth :=
          Nat.div_lt_of_lt_mul (by omega)
        omega
      simp only [Function.comp, unpack_packIndex _ _ hx hy]
    · have h0 : sd.indices.length = 0 := by omega
      rw [if_neg hN, h0]
      rfl
  · show sd.indices.length ≤ (sd.color.getWidth * sd.color.getWidth) % 2 ^ 32
    rw [Nat.mod_eq_of_lt (by omega)]
    exact hcount

theorem index_buffer_contents_witness :
    (indexStores (ParticleTexturePool.empty.alloc (sampleData 2 3)).output
        (ParticleTexturePool.empty.alloc (sampleData 2 3)).events).map
          (fun w => (w.1, unpackIndex w.2)) =
      [(0, (0, 0)), (1, (1, 0)), (2, (0, 1))] :=
  (index_buffer_contents ParticleTexturePool.empty (sampleData 2 3)
    (by decide) (by decide) (by decide)).1

/-! ## Particle texture pool: the guard on the live-particle count -/

theorem count_map_store (e : GpuEvent) (bundle : Nat) (ws : List (Nat × Nat))
    (he : ∀ idx value, e ≠ GpuEvent.store bundle idx value) :
    (ws.map (fun w => GpuEvent.store bundle w.1 w.2)).count e = 0 := by
  rw [List.count_eq_zero]
  intro hmem
  obtain ⟨w, _, hw⟩ := List.mem_map.mp hmem
  exact he w.1 w.2 hw.symm

theorem indexContentsAfter_writeData (bundle : Nat) (contents : Nat → Nat)
    (b : Nat) (t : TextureSlot) (src : PixelData) (mip face : Nat) (discard : Bool)
    (events : List GpuEvent) :
    indexContentsAfter bundle contents (.writeData b t src mip face discard :: events) =
      indexContentsAfter bundle contents events := rfl

/-- C6: for every `alloc` call the index buffer of the returned bundle is locked once and
unlocked once when the live-particle count is greater than zero, and is neither locked nor
unlocked when it is zero; with zero live particles no call at all reaches the index buffer
and its contents stay as they were. In both cases the position/rotation, color and
size/frame-index textures are each written once, with the discard flag set. -/
theorem alloc_index_buffer_guard (pool : ParticleTexturePool)
    (sd : ParticleCPUSimulationData) :
    (0 < sd.indices.length ↔
      lockCount (pool.alloc sd).output (pool.alloc sd).events = 1 ∧
      unlockCount (pool.alloc sd).output (pool.alloc sd).events = 1) ∧
    (sd.indices.length = 0 ↔
      lockCount (pool.alloc sd).output (pool.alloc sd).events = 0 ∧
      unlockCount (pool.alloc sd).output (pool.alloc sd).events = 0) ∧
    (sd.indices.length = 0 →
      indexBufferEvents (pool.alloc sd).output (pool.alloc sd).events = [] ∧
      indexStores (pool.alloc sd).output (pool.alloc sd).events = [] ∧
      ∀ contents : Nat → Nat,
        indexContentsAfter (pool.alloc sd).output contents (pool.alloc sd).events =
          contents) ∧
    textureWrites (pool.alloc sd).events =
      [ .writeData (pool.alloc sd).output .positionAndRotation sd.positionAndRotation 0 0 true,
        .writeData (pool.alloc sd).output .color sd.color 0 0 true,
        .writeData (pool.alloc sd).output .sizeAndFrameIdx sd.sizeAndFrameIdx 0 0 true ] := by
  have hlock : lockCount (pool.alloc sd).output (pool.alloc sd).events =
      if 0 < sd.indices.length then 1 else 0 := by
    unfold lockCount ParticleTexturePool.alloc
    by_cases h : 0 < sd.indices.length
    · simp only [gt_iff_lt, h, if_true, List.count_append, List.count_cons, List.count_nil]
      rw [count_map_store _ _ _ (by intro _ _ hne; exact GpuEvent.noConfusion hne)]
      simp
    · simp [h, List.count_cons]
  have hunlock : unlockCount (pool.alloc sd).output (pool.alloc sd).events =
      if 0 < sd.indices.length then 1 else 0 := by
    unfold unlockCount ParticleTexturePool.alloc
    by_cases h : 0 < sd.indices.length
    · simp only [gt_iff_lt, h, if_true, List.count_append, List.count_cons, List.count_nil]
      rw [count_map_store _ _ _ (by intro _ _ hne; exact GpuEvent.noConfusion hne)]
      simp
    · simp [h, List.count_cons]
  refine ⟨?_, ?_, ?_, ?_⟩
  · rw [hlock, hunlock]
    by_cases h : 0 < sd.indices.length <;> simp [h]
  · rw [hlock, hunlock]
    by_cases h : 0 < sd.indices.length
    · rw [if_pos h]
      exact ⟨fun h0 => by omega, fun hh => absurd hh.1 (by decide)⟩
    · rw [if_neg h]
      exact ⟨fun _ => ⟨rfl, rfl⟩, fun _ => by omega⟩
  · intro h0
    have hnot : ¬ 0 < sd.indices.length := by omega
    refine ⟨?_, ?_, ?_⟩
    · unfold ParticleTexturePool.alloc
      simp [hnot, indexBufferEvents]
    · rw [indexStores_alloc, if_neg hnot]
    · intro contents
      unfold ParticleTexturePool.alloc
      simp [hnot, indexContentsAfter]
  · unfold ParticleTexturePool.alloc textureWrites
    by_cases h : 0 < sd.indices.length
    · simp [h, List.filter_cons, List.filter_append, List.filter_map]
    · simp [h, List.filter_cons]

end BSF
